import Mathlib

set_option maxHeartbeats 1000000

namespace Audit

/-- Go strings are modelled as lists of characters. -/
abbrev Str := List Char

/-- Models Go path.Join for components that are already clean: when both are
nonempty the result is the directory, a slash, then the file name. -/
def pathJoin (d f : Str) : Str :=
  if d = [] then f else if f = [] then d else d ++ '/' :: f

/-- Characters of a string that follow its last slash. -/
def afterLastSlash (s : Str) : Str :=
  s.foldl (fun acc c => if c = '/' then [] else acc ++ [c]) []

/-- Models Go path.Base: an empty path gives a dot, trailing slashes are
removed, then everything up to the final slash is dropped; an all-slash path
gives a single slash. -/
def pathBase (s : Str) : Str :=
  if s = [] then ['.']
  else if afterLastSlash ((s.reverse.dropWhile (fun c => c = '/')).reverse) = [] then ['/']
  else afterLastSlash ((s.reverse.dropWhile (fun c => c = '/')).reverse)

/-- Models Go strings.TrimPrefix: drop the prefix when present, otherwise
return the string unchanged. -/
def trimPre (s pre : Str) : Str :=
  if pre.isPrefixOf s then s.drop pre.length else s

/-- Numeric value of a decimal digit character. -/
def digitVal (c : Char) : Nat := c.toNat - 48

/-- Models the digit-consuming loop of Go strconv.ParseUint in base 10: the
input must be nonempty and entirely decimal digits. -/
def parseNatDigits (s : Str) : Option Nat :=
  if s ≠ [] ∧ s.all Char.isDigit then
    some (s.foldl (fun a c => 10 * a + digitVal c) 0)
  else none

/-- Models Go strconv.ParseInt with base 10 and bitSize 64: an optional sign,
a nonempty run of decimal digits, and a signed 64-bit range check. -/
def parseInt64 (s : Str) : Option Int :=
  match s with
  | [] => none
  | c :: rest =>
    if c = '-' then
      (parseNatDigits rest).bind fun n =>
        if (n : Int) ≤ 2 ^ 63 then some (-(n : Int)) else none
    else if c = '+' then
      (parseNatDigits rest).bind fun n =>
        if (n : Int) ≤ 2 ^ 63 - 1 then some (n : Int) else none
    else
      (parseNatDigits (c :: rest)).bind fun n =>
        if (n : Int) ≤ 2 ^ 63 - 1 then some (n : Int) else none

/-- Decimal digit characters of a natural number, most significant first. -/
def formatNat (n : Nat) : Str :=
  if n = 0 then ['0'] else ((Nat.digits 10 n).map Nat.digitChar).reverse

/-- Models Go strconv.FormatInt with base 10. -/
def formatInt (i : Int) : Str :=
  if i < 0 then '-' :: formatNat i.natAbs else formatNat i.toNat

/-- Models Go time.Time as a count of whole seconds since the unix epoch plus
a nanosecond remainder; the Go representation keeps nsec inside one second,
so the sec field is the Unix() value, the wall-clock time truncated to whole
seconds. -/
structure GoTime where
  sec : Int
  nsec : Int
  deriving DecidableEq

def maxInt64 : Int := 2 ^ 63 - 1

def minInt64 : Int := -(2 ^ 63)

/-- Models Go time.Time.Sub: the difference in nanoseconds, saturating at the
int64 bounds of a Go Duration. -/
def timeSub (t u : GoTime) : Int :=
  max minInt64 (min maxInt64 ((t.sec - u.sec) * 1000000000 + (t.nsec - u.nsec)))

/-- Models Go time.Unix applied to whole seconds and zero nanoseconds. -/
def timeUnix (sec : Int) : GoTime := ⟨ sec, 0⟩

/-- Record model from log.go: rule match data of one message. -/
structure MessageData where
  File : Str
  Line : Int
  ID : Int
  Rev : Str
  Msg : Str
  Data : Str
  Severity : Int
  Ver : Str
  Maturity : Int
  Accuracy : Int
  Tags : List Str
  Raw : Str
  deriving DecidableEq

/-- Record model from log.go: one rule-match message. -/
structure Message where
  Message : Str
  Data : MessageData
  deriving DecidableEq

/-- Record model from log.go: the request part of a transaction. -/
structure TransactionRequest where
  Method : Str
  Protocol : Str
  URI : Str
  HTTPVersion : Str
  Headers : List (Str × List Str)
  Body : Str
  deriving DecidableEq

/-- Record model from log.go: the response part of a transaction. -/
structure TransactionResponse where
  Protocol : Str
  Status : Int
  Headers : List (Str × List Str)
  Body : Str
  deriving DecidableEq

/-- Record model from log.go: one transaction. -/
structure Transaction where
  Timestamp : Str
  UnixTimestamp : Int
  ID : Str
  ClientIP : Str
  ClientPort : Int
  HostIP : Str
  HostPort : Int
  ServerID : Str
  Request : Option TransactionRequest
  Response : Option TransactionResponse
  deriving DecidableEq

/-- Record model from log.go: one audit log entry. -/
structure Log where
  Transaction : Transaction
  Messages : List Message
  deriving DecidableEq

/-- The processor configuration: directory and base filename of the live
audit log, the two job intervals, and the retention duration, all durations
in nanoseconds as in Go. The logger, lock, channels and handler of the Go
struct carry no pure state and are not modelled as fields. -/
structure LogProcessor where
  auditLogDir : Str
  auditLogFile : Str
  ProcessingJobInterval : Int
  ExpirationJobInterval : Int
  LogExpiration : Int
  deriving DecidableEq

/-- Models generateNewBackupFilename: the audit directory joined with the
base filename, a dot, and the decimal unix seconds of the timestamp. -/
def LogProcessor.generateNewBackupFilename (p : LogProcessor) (timestamp : GoTime) : Str :=
  pathJoin p.auditLogDir (p.auditLogFile ++ '.' :: formatInt timestamp.sec)

/-- Models parseTimestampFromBackupFilename: take the path base, strip the
live-file name plus a dot, parse the remainder as a signed 64-bit decimal,
and build a time from those unix seconds. -/
def LogProcessor.parseTimestampFromBackupFilename (p : LogProcessor) (filename : Str) :
    Option GoTime :=
  (parseInt64 (trimPre (pathBase filename) (p.auditLogFile ++ ['.']))).map timeUnix

/-- Models isBackupFile: the base name must start with the live-file name
plus a dot, and the trailing timestamp must parse. -/
def LogProcessor.isBackupFile (p : LogProcessor) (filename : Str) : Bool :=
  (p.auditLogFile ++ ['.']).isPrefixOf (pathBase filename) &&
    (p.parseTimestampFromBackupFilename filename).isSome

/-- A file system maps a path to the byte content of the file stored there,
or none when no file exists at that path. -/
def FS : Type := Str → Option Str

/-- Point update of a file system. -/
def FS.update (fs : FS) (k v : Str) : FS :=
  fun q => if q = k then some v else fs q

/-- Injected failures for the fallible system calls inside rotateLogs: a
failing os.Open, a failing os.Create, an io.Copy that stops after a given
number of bytes, and a failing os.Truncate. -/
structure IOFaults where
  openFails : Bool
  createFails : Bool
  copyFailsAfter : Option Nat
  truncateFails : Bool
  deriving DecidableEq

/-- The fault assignment where every system call succeeds. -/
def noFaults : IOFaults := ⟨ false, false, none, false⟩

/-- Which step of rotateLogs failed, mirroring the four wrapped error
messages of the source. -/
inductive RotateError where
  | openErr
  | createErr
  | copyErr
  | truncateErr
  deriving DecidableEq

/-- Models rotateLogs: open the live file, create the backup file named for
the current time, copy the live content into it, then truncate the live
file; each step can fail, and on failure the file-system effects already
performed remain. Returns the backup path on success together with the
resulting file system. The mutex serializing rotations is not modelled; one
call runs alone as the lock guarantees. -/
def LogProcessor.rotateLogs (p : LogProcessor) (fs : FS) (now : GoTime)
    (flt : IOFaults) : Except RotateError Str × FS :=
  let logPath := pathJoin p.auditLogDir p.auditLogFile
  match fs logPath with
  | none => (Except.error RotateError.openErr, fs)
  | some content =>
    if flt.openFails then (Except.error RotateError.openErr, fs)
    else
      let copyName := p.generateNewBackupFilename now
      if flt.createFails then (Except.error RotateError.createErr, fs)
      else
        let fs1 := fs.update copyName []
        match flt.copyFailsAfter with
        | some n => (Except.error RotateError.copyErr, fs1.update copyName (content.take n))
        | none =>
          let fs2 := fs1.update copyName content
          if flt.truncateFails then (Except.error RotateError.truncateErr, fs2)
          else (Except.ok copyName, fs2.update logPath [])

/-- The error a ProcessLogFile call can return: a failing os.Open, the
aggregate errors-occurred failure, or a scanner read failure wrapping the
underlying error. -/
inductive ProcError where
  | openFailure
  | aggregate
  | readFailure (e : Str)
  deriving DecidableEq

/-- The line-by-line content the scanner delivers for the opened file: the
lines successfully read, and an optional read error that stopped the scan. -/
structure ScanInput where
  lines : List Str
  readErr : Option Str

/-- One line fails when it does not decode to a record, or when the handler
returns a non-nil error for the decoded record. -/
def lineFails (decode : Str → Option Log) (handler : Log → Option Str) (line : Str) : Bool :=
  match decode line with
  | none => true
  | some l => (handler l).isSome

/-- Models the scan loop of ProcessLogFile, yielding the final
processing-errors flag and the records dispatched to the handler in order. -/
def scanLines (decode : Str → Option Log) (handler : Log → Option Str)
    (lines : List Str) : Bool × List Log :=
  lines.foldl
    (fun acc line =>
      match decode line with
      | none => (true, acc.2)
      | some l =>
        match handler l with
        | none => (acc.1, acc.2 ++ [l])
        | some _ => (true, acc.2 ++ [l]))
    (false, [])

/-- Models ProcessLogFile after a successful os.Open: json.Unmarshal is the
decode oracle and the installed record handler is the handler oracle, where
a some result is a non-nil error. After the loop the aggregate error is
checked first and the scanner read error second, mirroring the order of the
source. Returns the overall result and the records dispatched in order. -/
def processLogFile (decode : Str → Option Log) (handler : Log → Option Str)
    (input : ScanInput) : Except ProcError Unit × List Log :=
  let r := scanLines decode handler input.lines
  if r.1 then (Except.error ProcError.aggregate, r.2)
  else
    match input.readErr with
    | some e => (Except.error (ProcError.readFailure e), r.2)
    | none => (Except.ok (), r.2)

/-- One directory entry as returned by os.ReadDir: a name, whether it is a
directory, and whether it is a regular file. -/
structure DirEntry where
  name : Str
  isDir : Bool
  isRegular : Bool
  deriving DecidableEq

/-- Models expireBackupLogFiles given the directory listing: returns the
full paths of the files it removes. Directories, irregular files, names
that are not backup files, and unparseable timestamps are skipped; a file
is removed when its age, now minus its parsed timestamp, exceeds the
retention duration. -/
def LogProcessor.expireBackupLogFiles (p : LogProcessor) (now : GoTime)
    (entries : List DirEntry) : List Str :=
  entries.foldl
    (fun deleted e =>
      if e.isDir || !e.isRegular then deleted
      else if !(p.isBackupFile e.name) then deleted
      else
        match p.parseTimestampFromBackupFilename e.name with
        | none => deleted
        | some ts =>
          if timeSub now ts > p.LogExpiration then
            deleted ++ [pathJoin p.auditLogDir e.name]
          else deleted)
    []

/-- One transaction-counter increment with its four label values. -/
structure TxnMetric where
  statusCode : Str
  method : Str
  host : Str
  path : Str
  deriving DecidableEq

/-- One rule-violation-counter increment with its four label values. -/
structure RuleMetric where
  ruleID : Str
  method : Str
  host : Str
  path : Str
  deriving DecidableEq

/-- The label value used when a field is missing. -/
def unknownLabel : Str := ['u', 'n', 'k', 'n', 'o', 'w', 'n']

/-- Label derivation shared by both metric emitters: the method from the
request, host and path from running the request URI through the url.Parse
oracle, and unknown whenever absent. -/
def requestLabels (urlParse : Str → Option (Str × Str)) (log : Log) : Str × Str × Str :=
  match log.Transaction.Request with
  | none => (unknownLabel, unknownLabel, unknownLabel)
  | some req =>
    match urlParse req.URI with
    | none => (req.Method, unknownLabel, unknownLabel)
    | some (h, pa) => (req.Method, h, pa)

/-- Models sendTransactionMetrics: one counter increment, labelled by the
response status, unknown when there is no response, and the request
labels. -/
def sendTransactionMetrics (urlParse : Str → Option (Str × Str)) (log : Log) :
    List TxnMetric :=
  [⟨ (match log.Transaction.Response with
      | none => unknownLabel
      | some resp => formatInt resp.Status),
     (requestLabels urlParse log).1,
     (requestLabels urlParse log).2.1,
     (requestLabels urlParse log).2.2⟩]

/-- Models sendRuleViolationMetrics: one counter increment per message,
labelled by the rule identifier, file, dash, id, and the request labels. -/
def sendRuleViolationMetrics (urlParse : Str → Option (Str × Str)) (log : Log) :
    List RuleMetric :=
  log.Messages.map fun msg =>
    ⟨ msg.Data.File ++ '-' :: formatInt msg.Data.ID,
      (requestLabels urlParse log).1,
      (requestLabels urlParse log).2.1,
      (requestLabels urlParse log).2.2⟩

/-- One structured warning as emitted by defaultLogHandler: transaction id,
client ip, the optional request triple of method, uri and protocol, and one
rule-identifier and message pair per rule match. -/
structure Warning where
  id : Str
  clientIP : Str
  request : Option (Str × Str × Str)
  rules : List (Str × Str)
  deriving DecidableEq

/-- The effects of one defaultLogHandler call: the returned error, the
warnings written, and the increments on each metric path. -/
structure HandlerEffects where
  result : Option Str
  warnings : List Warning
  txnMetrics : List TxnMetric
  ruleMetrics : List RuleMetric
  deriving DecidableEq

/-- Models defaultLogHandler: with no messages it returns nil with no
effects; otherwise it emits exactly one warning and forwards the record to
both metric emitters, always returning nil. -/
def defaultLogHandler (urlParse : Str → Option (Str × Str)) (log : Log) :
    HandlerEffects :=
  if log.Messages = [] then ⟨ none, [], [], []⟩
  else
    ⟨ none,
      [⟨ log.Transaction.ID, log.Transaction.ClientIP,
         log.Transaction.Request.map (fun r => (r.Method, r.URI, r.Protocol)),
         log.Messages.map (fun msg =>
           (msg.Data.File ++ '-' :: formatInt msg.Data.ID, msg.Data.Msg))⟩],
      sendTransactionMetrics urlParse log,
      sendRuleViolationMetrics urlParse log⟩

/-- Models Go time.NewTicker: Go panics when the interval is not positive,
and otherwise yields a ticker. -/
def newTicker (d : Int) : Except Unit Unit :=
  if d ≤ 0 then Except.error () else Except.ok ()

/-- Models the initialization of StartExpirationJob up to its first wait:
the job creates its ticker from the expiration interval before anything
else, so a non-positive interval panics. -/
def startExpirationJobInit (p : LogProcessor) : Except Unit Unit :=
  newTicker p.ExpirationJobInterval

/-- A record value with every field empty, used to instantiate oracles. -/
def emptyLog : Log :=
  ⟨⟨ [], 0, [], [], 0, [], 0, [], none, none⟩, []⟩

lemma scanLines_go (decode : Str → Option Log) (handler : Log → Option Str)
    (lines : List Str) (b : Bool) (acc : List Log) :
    lines.foldl
      (fun acc line =>
        match decode line with
        | none => (true, acc.2)
        | some l =>
          match handler l with
          | none => (acc.1, acc.2 ++ [l])
          | some _ => (true, acc.2 ++ [l]))
      (b, acc) =
      (b || lines.any (lineFails decode handler), acc ++ lines.filterMap decode) := by
  induction lines generalizing b acc with
  | nil => simp
  | cons x t ih =>
    simp only [List.foldl_cons, List.any_cons, List.filterMap_cons]
    cases hd : decode x with
    | none =>
      simp only [hd, ih, lineFails, hd, Bool.true_or]
      simp [lineFails, hd]
    | some l =>
      cases hh : handler l with
      | none =>
        simp only [hd, hh, ih]
        simp [lineFails, hd, hh]
      | some e =>
        simp only [hd, hh, ih]
        simp [lineFails, hd, hh]

lemma scanLines_eq (decode : Str → Option Log) (handler : Log → Option Str)
    (lines : List Str) :
    scanLines decode handler lines =
      (lines.any (lineFails decode handler), lines.filterMap decode) := by
  unfold scanLines
  rw [scanLines_go]
  simp

/-- C3. For a file read without scanner failure, ProcessLogFile dispatches
exactly one handler call per line that decodes, in file order, passing the
decoded record itself; a line that fails is skipped without aborting the
scan and without suppressing later calls; the call returns the aggregate
errors-occurred failure exactly when some line failed to decode or to be
handled, and returns success exactly when every line succeeded. -/
theorem processLogFile_line_fault_isolation (decode : Str → Option Log)
    (handler : Log → Option Str) (lines : List Str) :
    (processLogFile decode handler ⟨ lines, none⟩).2 = lines.filterMap decode ∧
    ((processLogFile decode handler ⟨ lines, none⟩).1 = Except.error ProcError.aggregate ↔
      ∃ line ∈ lines, lineFails decode handler line = true) ∧
    ((processLogFile decode handler ⟨ lines, none⟩).1 = Except.ok () ↔
      ∀ line ∈ lines, lineFails decode handler line = false) := by
  unfold processLogFile
  rw [scanLines_eq]
  cases h : lines.any (lineFails decode handler) with
  | true =>
    simp only [h, if_true]
    refine ⟨ trivial, ?_, ?_⟩
    · exact iff_of_true trivial (List.any_eq_true.mp h)
    · constructor
      · intro hcon
        cases hcon
      · intro hall
        rcases List.any_eq_true.mp h with ⟨ x, hx, hfx⟩
        rw [hall x hx] at hfx
        cases hfx
  | false =>
    simp only [h, Bool.false_eq_true, if_false]
    refine ⟨ trivial, ?_, ?_⟩
    · constructor
      · intro hcon
        cases hcon
      · intro hex
        rcases hex with ⟨ x, hx, hfx⟩
        have hc := List.any_eq_true.mpr ⟨ x, hx, hfx⟩
        rw [h] at hc
        cases hc
    · refine iff_of_true trivial ?_
      intro x hx
      by_contra hne
      simp only [Bool.not_eq_false] at hne
      have hc := List.any_eq_true.mpr ⟨ x, hx, hne⟩
      rw [h] at hc
      cases hc

/-- C4 counterexample. A file whose single line fails to parse and whose
scan then stops with a read error: the call returns the aggregate failure,
not the read failure, so the read error is not reported distinctly. -/
theorem processLogFile_io_error_masked_cex :
    (processLogFile (fun _ => none) (fun _ => none) ⟨ [['x']], some ['d']⟩).1 =
      Except.error ProcError.aggregate ∧
    (processLogFile (fun _ => none) (fun _ => none) ⟨ [['x']], some ['d']⟩).1 ≠
      Except.error (ProcError.readFailure ['d']) := by
  constructor
  · rfl
  · intro h
    have : ProcError.aggregate = ProcError.readFailure ['d'] := by
      have h0 : (processLogFile (fun _ => none) (fun _ => none)
          ⟨ [['x']], some ['d']⟩).1 = Except.error ProcError.aggregate := rfl
      rw [h0] at h
      exact Except.error.inj h
    cases this

/-- C4 amended. When the scan stops with a read error, the call fails: the
returned error is the read failure when no line failed to parse or to be
handled, but when some line failed the aggregate errors-occurred failure is
returned instead and the read error is superseded. -/
theorem processLogFile_read_error_after_aggregate (decode : Str → Option Log)
    (handler : Log → Option Str) (lines : List Str) (e : Str) :
    (processLogFile decode handler ⟨ lines, some e⟩).1 =
      Except.error
        (if lines.any (lineFails decode handler) then ProcError.aggregate
         else ProcError.readFailure e) := by
  unfold processLogFile
  rw [scanLines_eq]
  by_cases h : lines.any (lineFails decode handler) = true
  · simp [h]
  · simp only [Bool.not_eq_true] at h
    simp [h]

/-- C10. A handler error is folded into the same aggregate failure as a
parse error: when some decoded line makes the handler return a non-nil
error, the scan still dispatches every decoded line and the call returns
the aggregate errors-occurred value, the very value returned for decode
failures. -/
theorem handler_error_folded_into_aggregate (decode : Str → Option Log)
    (handler : Log → Option Str) (lines : List Str)
    (h : ∃ line ∈ lines, ∃ l, decode line = some l ∧ handler l ≠ none) :
    (processLogFile decode handler ⟨ lines, none⟩).1 = Except.error ProcError.aggregate ∧
    (processLogFile decode handler ⟨ lines, none⟩).2 = lines.filterMap decode := by
  rcases h with ⟨ line, hmem, l, hdec, hh⟩
  have hfail : lineFails decode handler line = true := by
    simp [lineFails, hdec, Option.isSome_iff_ne_none, hh]
  have hany : lines.any (lineFails decode handler) = true :=
    List.any_eq_true.mpr ⟨ line, hmem, hfail⟩
  unfold processLogFile
  rw [scanLines_eq]
  simp [hany]

/-- C10 witness: a concrete run with one decodable line whose handler
fails. -/
theorem handler_error_folded_into_aggregate_witness :
    (processLogFile (fun _ => some emptyLog) (fun _ => some ['e'])
        ⟨ [['a']], none⟩).1 = Except.error ProcError.aggregate ∧
    (processLogFile (fun _ => some emptyLog) (fun _ => some ['e'])
        ⟨ [['a']], none⟩).2 = [['a']].filterMap (fun _ => some emptyLog) :=
  handler_error_folded_into_aggregate (fun _ => some emptyLog) (fun _ => some ['e'])
    [['a']] ⟨ ['a'], List.mem_singleton.mpr rfl, emptyLog, rfl, by simp⟩

lemma FS.update_same (fs : FS) (k v : Str) : fs.update k v k = some v := by
  simp [FS.update]

lemma FS.update_other (fs : FS) (k v q : Str) (h : q ≠ k) : fs.update k v q = fs q := by
  simp [FS.update, h]

lemma pathJoin_right_inj (d : Str) : ∀ x y, pathJoin d x = pathJoin d y → x = y := by
  intro x y h
  unfold pathJoin at h
  by_cases hd : d = []
  · rw [if_pos hd, if_pos hd] at h
    exact h
  · rw [if_neg hd, if_neg hd] at h
    by_cases hx : x = []
    · by_cases hy : y = []
      · rw [hx, hy]
      · rw [if_pos hx, if_neg hy] at h
        have hl := congrArg List.length h
        simp only [List.length_append, List.length_cons] at hl
        omega
    · by_cases hy : y = []
      · rw [if_neg hx, if_pos hy] at h
        have hl := congrArg List.length h
        simp only [List.length_append, List.length_cons] at hl
        omega
      · rw [if_neg hx, if_neg hy] at h
        have h2 := List.append_cancel_left h
        simpa using h2

lemma backupName_ne_logPath (p : LogProcessor) (now : GoTime) :
    p.generateNewBackupFilename now ≠ pathJoin p.auditLogDir p.auditLogFile := by
  intro h
  unfold LogProcessor.generateNewBackupFilename at h
  have h2 := pathJoin_right_inj p.auditLogDir _ _ h
  have hl := congrArg List.length h2
  simp only [List.length_append, List.length_cons] at hl
  omega

lemma rotateLogs_success_eq (p : LogProcessor) (fs : FS) (now : GoTime) (flt : IOFaults)
    (content : Str) (hc : fs (pathJoin p.auditLogDir p.auditLogFile) = some content)
    (ho : flt.openFails = false) (hcr : flt.createFails = false)
    (hcp : flt.copyFailsAfter = none) (ht : flt.truncateFails = false) :
    p.rotateLogs fs now flt =
      (Except.ok (p.generateNewBackupFilename now),
       ((fs.update (p.generateNewBackupFilename now) []).update
           (p.generateNewBackupFilename now) content).update
         (pathJoin p.auditLogDir p.auditLogFile) []) := by
  unfold LogProcessor.rotateLogs
  simp [hc, ho, hcr, hcp, ht]

lemma rotateLogs_openmiss_eq (p : LogProcessor) (fs : FS) (now : GoTime) (flt : IOFaults)
    (hc : fs (pathJoin p.auditLogDir p.auditLogFile) = none) :
    p.rotateLogs fs now flt = (Except.error RotateError.openErr, fs) := by
  unfold LogProcessor.rotateLogs
  simp [hc]

lemma rotateLogs_openfail_eq (p : LogProcessor) (fs : FS) (now : GoTime) (flt : IOFaults)
    (content : Str) (hc : fs (pathJoin p.auditLogDir p.auditLogFile) = some content)
    (ho : flt.openFails = true) :
    p.rotateLogs fs now flt = (Except.error RotateError.openErr, fs) := by
  unfold LogProcessor.rotateLogs
  simp [hc, ho]

lemma rotateLogs_createfail_eq (p : LogProcessor) (fs : FS) (now : GoTime) (flt : IOFaults)
    (content : Str) (hc : fs (pathJoin p.auditLogDir p.auditLogFile) = some content)
    (ho : flt.openFails = false) (hcr : flt.createFails = true) :
    p.rotateLogs fs now flt = (Except.error RotateError.createErr, fs) := by
  unfold LogProcessor.rotateLogs
  simp [hc, ho, hcr]

lemma rotateLogs_copyfail_eq (p : LogProcessor) (fs : FS) (now : GoTime) (flt : IOFaults)
    (content : Str) (n : Nat)
    (hc : fs (pathJoin p.auditLogDir p.auditLogFile) = some content)
    (ho : flt.openFails = false) (hcr : flt.createFails = false)
    (hcp : flt.copyFailsAfter = some n) :
    p.rotateLogs fs now flt =
      (Except.error RotateError.copyErr,
       (fs.update (p.generateNewBackupFilename now) []).update
         (p.generateNewBackupFilename now) (content.take n)) := by
  unfold LogProcessor.rotateLogs
  simp [hc, ho, hcr, hcp]

lemma rotateLogs_truncfail_eq (p : LogProcessor) (fs : FS) (now : GoTime) (flt : IOFaults)
    (content : Str) (hc : fs (pathJoin p.auditLogDir p.auditLogFile) = some content)
    (ho : flt.openFails = false) (hcr : flt.createFails = false)
    (hcp : flt.copyFailsAfter = none) (ht : flt.truncateFails = true) :
    p.rotateLogs fs now flt =
      (Except.error RotateError.truncateErr,
       (fs.update (p.generateNewBackupFilename now) []).update
         (p.generateNewBackupFilename now) content) := by
  unfold LogProcessor.rotateLogs
  simp [hc, ho, hcr, hcp, ht]

/-- C1. A successful rotateLogs call returns the backup path, the live
directory joined with the base filename, a dot, and the decimal unix
seconds of the rotation time; it creates exactly one file, the backup at
that path holding the entire content the live file had, leaves the live
file existing with empty content, and changes nothing else in the file
system. -/
theorem rotate_success_creates_single_backup (p : LogProcessor) (fs : FS)
    (now : GoTime) (flt : IOFaults) (bp : Str)
    (h : (p.rotateLogs fs now flt).1 = Except.ok bp) :
    bp = pathJoin p.auditLogDir (p.auditLogFile ++ '.' :: formatInt now.sec) ∧
    ∃ content, fs (pathJoin p.auditLogDir p.auditLogFile) = some content ∧
      (p.rotateLogs fs now flt).2 bp = some content ∧
      (p.rotateLogs fs now flt).2 (pathJoin p.auditLogDir p.auditLogFile) = some [] ∧
      ∀ q, q ≠ bp → q ≠ pathJoin p.auditLogDir p.auditLogFile →
        (p.rotateLogs fs now flt).2 q = fs q := by
  cases hc : fs (pathJoin p.auditLogDir p.auditLogFile) with
  | none =>
    rw [rotateLogs_openmiss_eq p fs now flt hc] at h
    cases h
  | some content =>
    cases ho : flt.openFails with
    | true =>
      rw [rotateLogs_openfail_eq p fs now flt content hc ho] at h
      cases h
    | false =>
    cases hcr : flt.createFails with
    | true =>
      rw [rotateLogs_createfail_eq p fs now flt content hc ho hcr] at h
      cases h
    | false =>
    cases hcp : flt.copyFailsAfter with
    | some n =>
      rw [rotateLogs_copyfail_eq p fs now flt content n hc ho hcr hcp] at h
      cases h
    | none =>
    cases ht : flt.truncateFails with
    | true =>
      rw [rotateLogs_truncfail_eq p fs now flt content hc ho hcr hcp ht] at h
      cases h
    | false =>
    have heq := rotateLogs_success_eq p fs now flt content hc ho hcr hcp ht
    rw [heq] at h
    have hbp : bp = p.generateNewBackupFilename now := (Except.ok.inj h).symm
    have hne := backupName_ne_logPath p now
    subst hbp
    refine ⟨ rfl, content, rfl, ?_, ?_, ?_⟩
    · rw [heq]
      show (_ : FS).update _ _ _ = _
      rw [FS.update_other _ _ _ _ hne, FS.update_same]
    · rw [heq]
      show (_ : FS).update _ _ _ = _
      rw [FS.update_same]
    · intro q hq1 hq2
      rw [heq]
      show (_ : FS).update _ _ _ = _
      rw [FS.update_other _ _ _ _ hq2, FS.update_other _ _ _ _ hq1,
        FS.update_other _ _ _ _ hq1]

/-- C1 witness data: a processor, a time and a one-file file system. -/
def wp : LogProcessor := ⟨ ['v', 'a', 'r'], ['a', '.', 'l', 'o', 'g'], 0, 0, 0⟩

/-- C1 witness data: the rotation instant. -/
def wnow : GoTime := ⟨ 99, 7⟩

/-- C1 witness data: the live file holds two bytes. -/
def wfs : FS := fun q =>
  if q = pathJoin wp.auditLogDir wp.auditLogFile then some ['h', 'i'] else none

/-- C1 witness: the concrete rotation succeeds and the theorem applies. -/
theorem rotate_success_creates_single_backup_witness :
    wp.generateNewBackupFilename wnow =
      pathJoin wp.auditLogDir (wp.auditLogFile ++ '.' :: formatInt wnow.sec) ∧
    ∃ content, wfs (pathJoin wp.auditLogDir wp.auditLogFile) = some content ∧
      (wp.rotateLogs wfs wnow noFaults).2 (wp.generateNewBackupFilename wnow) = some content ∧
      (wp.rotateLogs wfs wnow noFaults).2 (pathJoin wp.auditLogDir wp.auditLogFile) = some [] ∧
      ∀ q, q ≠ wp.generateNewBackupFilename wnow →
        q ≠ pathJoin wp.auditLogDir wp.auditLogFile →
        (wp.rotateLogs wfs wnow noFaults).2 q = wfs q :=
  rotate_success_creates_single_backup wp wfs wnow noFaults
    (wp.generateNewBackupFilename wnow) rfl

/-- C2. Truncation happens only after the copy completed: whenever the
rotateLogs result changed the live file at all, the call succeeded, the
backup holds the entire prior content, and the live file was truncated to
empty; and whenever opening the live file, creating the backup, or the
copy itself fails, the call returns an error and the live file is left
with exactly its prior content, never truncated and never deleted. -/
theorem rotate_truncates_only_after_copy (p : LogProcessor) (fs : FS)
    (now : GoTime) (flt : IOFaults) :
    ((flt.openFails = true ∨ flt.createFails = true ∨ flt.copyFailsAfter ≠ none ∨
        fs (pathJoin p.auditLogDir p.auditLogFile) = none) →
      (∃ e, (p.rotateLogs fs now flt).1 = Except.error e) ∧
      (p.rotateLogs fs now flt).2 (pathJoin p.auditLogDir p.auditLogFile) =
        fs (pathJoin p.auditLogDir p.auditLogFile)) ∧
    ((p.rotateLogs fs now flt).2 (pathJoin p.auditLogDir p.auditLogFile) ≠
        fs (pathJoin p.auditLogDir p.auditLogFile) →
      (p.rotateLogs fs now flt).1 = Except.ok (p.generateNewBackupFilename now) ∧
      (p.rotateLogs fs now flt).2 (pathJoin p.auditLogDir p.auditLogFile) = some [] ∧
      ∃ content, fs (pathJoin p.auditLogDir p.auditLogFile) = some content ∧
        (p.rotateLogs fs now flt).2 (p.generateNewBackupFilename now) = some content) := by
  have hne := backupName_ne_logPath p now
  cases hc : fs (pathJoin p.auditLogDir p.auditLogFile) with
  | none =>
    rw [rotateLogs_openmiss_eq p fs now flt hc]
    exact ⟨ fun _ => ⟨⟨ RotateError.openErr, rfl⟩, hc⟩, fun hd => absurd hc hd⟩
  | some content =>
    cases ho : flt.openFails with
    | true =>
      rw [rotateLogs_openfail_eq p fs now flt content hc ho]
      exact ⟨ fun _ => ⟨⟨ RotateError.openErr, rfl⟩, hc⟩, fun hd => absurd hc hd⟩
    | false =>
    cases hcr : flt.createFails with
    | true =>
      rw [rotateLogs_createfail_eq p fs now flt content hc ho hcr]
      exact ⟨ fun _ => ⟨⟨ RotateError.createErr, rfl⟩, hc⟩, fun hd => absurd hc hd⟩
    | false =>
    cases hcp : flt.copyFailsAfter with
    | some n =>
      rw [rotateLogs_copyfail_eq p fs now flt content n hc ho hcr hcp]
      have hu : ((fs.update (p.generateNewBackupFilename now) []).update
          (p.generateNewBackupFilename now) (content.take n))
          (pathJoin p.auditLogDir p.auditLogFile) = some content := by
        rw [FS.update_other _ _ _ _ (Ne.symm hne), FS.update_other _ _ _ _ (Ne.symm hne)]
        exact hc
      exact ⟨ fun _ => ⟨⟨ RotateError.copyErr, rfl⟩, hu⟩, fun hd => absurd hu hd⟩
    | none =>
    cases ht : flt.truncateFails with
    | true =>
      rw [rotateLogs_truncfail_eq p fs now flt content hc ho hcr hcp ht]
      have hu : ((fs.update (p.generateNewBackupFilename now) []).update
          (p.generateNewBackupFilename now) content)
          (pathJoin p.auditLogDir p.auditLogFile) = some content := by
        rw [FS.update_other _ _ _ _ (Ne.symm hne), FS.update_other _ _ _ _ (Ne.symm hne)]
        exact hc
      refine ⟨ fun hor => ?_, fun hd => absurd hu hd⟩
      rcases hor with h1 | h1 | h1 | h1
      · cases h1
      · cases h1
      · exact absurd rfl h1
      · cases h1
    | false =>
    rw [rotateLogs_success_eq p fs now flt content hc ho hcr hcp ht]
    refine ⟨ fun hor => ?_, fun _ => ?_⟩
    · rcases hor with h1 | h1 | h1 | h1
      · cases h1
      · cases h1
      · exact absurd rfl h1
      · cases h1
    · refine ⟨ rfl, ?_, content, rfl, ?_⟩
      · show (_ : FS).update _ _ _ = _
        rw [FS.update_same]
      · show (_ : FS).update _ _ _ = _
        rw [FS.update_other _ _ _ _ hne, FS.update_same]

/-- C2 witness data: rotation where os.Open fails. -/
def wfaultOpen : IOFaults := ⟨ true, false, none, false⟩

/-- C2 witness: with a failing open, the concrete rotation errors and
leaves the live file unchanged. -/
theorem rotate_truncates_only_after_copy_witness :
    (∃ e, (wp.rotateLogs wfs wnow wfaultOpen).1 = Except.error e) ∧
    (wp.rotateLogs wfs wnow wfaultOpen).2 (pathJoin wp.auditLogDir wp.auditLogFile) =
      wfs (pathJoin wp.auditLogDir wp.auditLogFile) :=
  (rotate_truncates_only_after_copy wp wfs wnow wfaultOpen).1 (Or.inl rfl)

lemma digitVal_digitChar (d : Nat) (h : d < 10) : digitVal (Nat.digitChar d) = d := by
  interval_cases d <;> rfl

lemma digitChar_isDigit (d : Nat) (h : d < 10) : (Nat.digitChar d).isDigit = true := by
  interval_cases d <;> rfl

lemma formatNat_ne_nil (n : Nat) : formatNat n ≠ [] := by
  unfold formatNat
  by_cases h : n = 0
  · simp [h]
  · simp only [h, if_false]
    simp [Nat.digits_ne_nil_iff_ne_zero.mpr h]

lemma formatNat_all_digits (n : Nat) : ∀ c ∈ formatNat n, c.isDigit = true := by
  intro c hc
  unfold formatNat at hc
  by_cases h : n = 0
  · simp [h] at hc
    rw [hc]
    rfl
  · simp only [h, if_false, List.mem_reverse, List.mem_map] at hc
    rcases hc with ⟨ d, hd, rfl⟩
    exact digitChar_isDigit d (Nat.digits_lt_base (by norm_num) hd)

lemma foldr_digits (l : List Nat) (h : ∀ d ∈ l, d < 10) :
    List.foldr (fun c a => 10 * a + digitVal c) 0 (l.map Nat.digitChar) = Nat.ofDigits 10 l := by
  induction l with
  | nil => simp [Nat.ofDigits]
  | cons d t ih =>
    simp only [List.map_cons, List.foldr_cons, Nat.ofDigits_cons]
    rw [ih (fun x hx => h x (List.mem_cons_of_mem _ hx)),
      digitVal_digitChar d (h d (List.mem_cons_self _ _))]
    omega

lemma parseNat_formatNat (n : Nat) : parseNatDigits (formatNat n) = some n := by
  unfold parseNatDigits
  rw [if_pos ⟨ formatNat_ne_nil n, List.all_eq_true.mpr (formatNat_all_digits n)⟩]
  by_cases h0 : n = 0
  · subst h0
    rfl
  · unfold formatNat
    simp only [h0, if_false]
    rw [List.foldl_reverse]
    rw [foldr_digits _ (fun d hd => Nat.digits_lt_base (by norm_num) hd)]
    rw [Nat.ofDigits_digits]

lemma isDigit_ne_dash {c : Char} (h : c.isDigit = true) : c ≠ '-' := by
  rintro rfl
  cases h

lemma isDigit_ne_plus {c : Char} (h : c.isDigit = true) : c ≠ '+' := by
  rintro rfl
  cases h

lemma parseInt64_formatInt (i : Int) (hlo : minInt64 ≤ i) (hhi : i ≤ maxInt64) :
    parseInt64 (formatInt i) = some i := by
  unfold formatInt
  by_cases hneg : i < 0
  · rw [if_pos hneg]
    simp only [parseInt64, if_pos rfl]
    rw [parseNat_formatNat, Option.some_bind]
    have hr : ((i.natAbs : Int)) ≤ 2 ^ 63 := by
      unfold minInt64 at hlo
      omega
    rw [if_pos hr]
    have : -((i.natAbs : Int)) = i := by omega
    rw [this]
    simp
  · rw [if_neg hneg]
    obtain ⟨ c, rest, hl⟩ : ∃ c rest, formatNat i.toNat = c :: rest := by
      cases h : formatNat i.toNat with
      | nil => exact absurd h (formatNat_ne_nil _)
      | cons a b => exact ⟨ a, b, rfl⟩
    have hcd : c.isDigit = true :=
      formatNat_all_digits i.toNat c (by rw [hl]; exact List.mem_cons_self _ _)
    rw [hl]
    simp only [parseInt64, if_neg (isDigit_ne_dash hcd), if_neg (isDigit_ne_plus hcd)]
    rw [← hl, parseNat_formatNat, Option.some_bind]
    have hr : ((i.toNat : Int)) ≤ 2 ^ 63 - 1 := by
      unfold maxInt64 at hhi
      omega
    rw [if_pos hr]
    have : ((i.toNat : Int)) = i := by omega
    rw [this]


lemma foldl_app_of_no_slash (l : Str) (h : ('/' : Char) ∉ l) :
    ∀ a : Str, l.foldl (fun acc c => if c = '/' then [] else acc ++ [c]) a = a ++ l := by
  induction l with
  | nil =>
    intro a
    simp
  | cons c t ih =>
    intro a
    have hc : ¬(c = '/') := by
      rintro rfl
      exact h (List.mem_cons_self _ _)
    simp only [List.foldl_cons, if_neg hc]
    rw [ih (fun hm => h (List.mem_cons_of_mem _ hm)) (a ++ [c])]
    simp

lemma afterLastSlash_no_slash (l : Str) (h : ('/' : Char) ∉ l) : afterLastSlash l = l := by
  unfold afterLastSlash
  rw [foldl_app_of_no_slash l h []]
  simp

lemma afterLastSlash_append_slash (xs ys : Str) (h : ('/' : Char) ∉ ys) :
    afterLastSlash (xs ++ '/' :: ys) = ys := by
  unfold afterLastSlash
  rw [show xs ++ '/' :: ys = (xs ++ ['/']) ++ ys from by simp]
  rw [List.foldl_append, List.foldl_append]
  have hmid : ∀ a : Str,
      List.foldl (fun acc c => if c = '/' then [] else acc ++ [c]) a ['/'] = [] := by
    intro a
    simp
  rw [hmid]
  rw [foldl_app_of_no_slash ys h []]
  simp

lemma pathBase_join (d rest : Str) (hr : rest ≠ []) (hs : ('/' : Char) ∉ rest) :
    pathBase (pathJoin d rest) = rest := by
  obtain ⟨ c, t, hrv⟩ : ∃ c t, rest.reverse = c :: t := by
    cases h : rest.reverse with
    | nil => exact absurd (by simpa using congrArg List.reverse h) hr
    | cons a b => exact ⟨ a, b, rfl⟩
  have hc : ¬(c = '/') := by
    rintro rfl
    exact hs (List.mem_reverse.mp (by rw [hrv]; exact List.mem_cons_self _ _))
  unfold pathJoin
  by_cases hd : d = []
  · rw [if_pos hd]
    unfold pathBase
    rw [if_neg hr]
    have h1 : rest.reverse.dropWhile (fun c => c = '/') = rest.reverse := by
      rw [hrv, List.dropWhile_cons]
      simp [hc]
    rw [h1, List.reverse_reverse, afterLastSlash_no_slash rest hs, if_neg hr]
  · rw [if_neg hd, if_neg hr]
    unfold pathBase
    have hne : d ++ '/' :: rest ≠ [] := by simp
    rw [if_neg hne]
    have hcr : (d ++ '/' :: rest).reverse = c :: (t ++ '/' :: d.reverse) := by
      rw [List.reverse_append]
      simp [hrv]
    have h1 : (d ++ '/' :: rest).reverse.dropWhile (fun c => c = '/') =
        (d ++ '/' :: rest).reverse := by
      rw [hcr, List.dropWhile_cons]
      simp [hc]
    rw [h1, List.reverse_reverse, afterLastSlash_append_slash d rest hs, if_neg hr]

lemma trimPre_append (pre s : Str) : trimPre (pre ++ s) pre = s := by
  unfold trimPre
  rw [if_pos (List.isPrefixOf_iff_prefix.mpr (List.prefix_append pre s))]
  exact List.drop_left pre s

lemma slash_not_mem_formatInt (i : Int) : ('/' : Char) ∉ formatInt i := by
  intro hm
  unfold formatInt at hm
  by_cases hneg : i < 0
  · rw [if_pos hneg] at hm
    rcases List.mem_cons.mp hm with h | h
    · exact absurd h (by decide)
    · exact absurd (formatNat_all_digits _ _ h) (by decide)
  · rw [if_neg hneg] at hm
    exact absurd (formatNat_all_digits _ _ hm) (by decide)

/-- C7. Backup filenames round-trip: for every timestamp in the 64-bit
range, the generated backup filename is recognized by isBackupFile, and
parsing it back yields exactly the whole-second truncation of the
timestamp; conversely, for any name built from the base name, a dot, and a
trailing suffix that is not a parseable 64-bit decimal integer, the parser
fails and the name is not a backup file. -/
theorem backup_filename_roundtrip (p : LogProcessor) (t : GoTime)
    (hf : ('/' : Char) ∉ p.auditLogFile)
    (hlo : minInt64 ≤ t.sec) (hhi : t.sec ≤ maxInt64) :
    p.isBackupFile (p.generateNewBackupFilename t) = true ∧
    p.parseTimestampFromBackupFilename (p.generateNewBackupFilename t) = some ⟨ t.sec, 0⟩ ∧
    ∀ suffix : Str, ('/' : Char) ∉ suffix → parseInt64 suffix = none →
      p.parseTimestampFromBackupFilename
        (pathJoin p.auditLogDir (p.auditLogFile ++ '.' :: suffix)) = none ∧
      p.isBackupFile (pathJoin p.auditLogDir (p.auditLogFile ++ '.' :: suffix)) = false := by
  have key : ∀ suffix : Str, ('/' : Char) ∉ suffix →
      pathBase (pathJoin p.auditLogDir (p.auditLogFile ++ '.' :: suffix)) =
        p.auditLogFile ++ '.' :: suffix := by
    intro suffix hs
    apply pathBase_join
    · simp
    · intro hm
      rcases List.mem_append.mp hm with h | h
      · exact hf h
      · rcases List.mem_cons.mp h with h2 | h2
        · exact absurd h2 (by decide)
        · exact hs h2
  have parse_eq : ∀ suffix : Str, ('/' : Char) ∉ suffix →
      p.parseTimestampFromBackupFilename
          (pathJoin p.auditLogDir (p.auditLogFile ++ '.' :: suffix)) =
        (parseInt64 suffix).map timeUnix := by
    intro suffix hs
    unfold LogProcessor.parseTimestampFromBackupFilename
    rw [key suffix hs]
    rw [show p.auditLogFile ++ '.' :: suffix = (p.auditLogFile ++ ['.']) ++ suffix from by simp]
    rw [trimPre_append]
  refine ⟨ ?_, ?_, ?_⟩
  · unfold LogProcessor.isBackupFile LogProcessor.generateNewBackupFilename
    rw [key _ (slash_not_mem_formatInt t.sec)]
    rw [Bool.and_eq_true]
    constructor
    · exact List.isPrefixOf_iff_prefix.mpr ⟨ formatInt t.sec, by simp⟩
    · show (p.parseTimestampFromBackupFilename
        (pathJoin p.auditLogDir (p.auditLogFile ++ '.' :: formatInt t.sec))).isSome = true
      rw [parse_eq _ (slash_not_mem_formatInt t.sec), parseInt64_formatInt t.sec hlo hhi]
      rfl
  · unfold LogProcessor.generateNewBackupFilename
    rw [parse_eq _ (slash_not_mem_formatInt t.sec), parseInt64_formatInt t.sec hlo hhi]
    rfl
  · intro suffix hs hparse
    constructor
    · rw [parse_eq suffix hs, hparse]
      rfl
    · unfold LogProcessor.isBackupFile
      rw [parse_eq suffix hs, hparse]
      simp

/-- C7 witness data: a concrete rotation instant inside the 64-bit range. -/
def wt : GoTime := ⟨ 1700000000, 123⟩

/-- C7 witness: the concrete generated name parses back to the truncated
time, and a non-numeric suffix is rejected. -/
theorem backup_filename_roundtrip_witness :
    wp.isBackupFile (wp.generateNewBackupFilename wt) = true ∧
    wp.parseTimestampFromBackupFilename (wp.generateNewBackupFilename wt) =
      some ⟨ 1700000000, 0⟩ ∧
    (wp.parseTimestampFromBackupFilename
        (pathJoin wp.auditLogDir (wp.auditLogFile ++ '.' :: ['z'])) = none ∧
     wp.isBackupFile (pathJoin wp.auditLogDir (wp.auditLogFile ++ '.' :: ['z'])) = false) := by
  have h := backup_filename_roundtrip wp wt (by decide) (by decide) (by decide)
  exact ⟨ h.1, h.2.1, h.2.2 ['z'] (by decide) (by decide)⟩

lemma expire_foldl (p : LogProcessor) (now : GoTime) :
    ∀ (entries : List DirEntry) (acc : List Str),
      entries.foldl
        (fun deleted e =>
          if e.isDir || !e.isRegular then deleted
          else if !(p.isBackupFile e.name) then deleted
          else
            match p.parseTimestampFromBackupFilename e.name with
            | none => deleted
            | some ts =>
              if timeSub now ts > p.LogExpiration then
                deleted ++ [pathJoin p.auditLogDir e.name]
              else deleted)
        acc =
      acc ++ entries.filterMap (fun e =>
        if e.isDir || !e.isRegular then none
        else if !(p.isBackupFile e.name) then none
        else
          match p.parseTimestampFromBackupFilename e.name with
          | none => none
          | some ts =>
            if timeSub now ts > p.LogExpiration then
              some (pathJoin p.auditLogDir e.name)
            else none) := by
  intro entries
  induction entries with
  | nil =>
    intro acc
    simp
  | cons e t ih =>
    intro acc
    simp only [List.foldl_cons, List.filterMap_cons]
    cases h1 : (e.isDir || !e.isRegular) with
    | true =>
      simp only [h1, if_true]
      rw [ih]
    | false =>
    simp only [h1, Bool.false_eq_true, if_false]
    cases h2 : p.isBackupFile e.name with
    | false =>
      simp only [h2, Bool.not_false, if_true]
      rw [ih]
    | true =>
    simp only [h2, Bool.not_true, Bool.false_eq_true, if_false]
    cases h3 : p.parseTimestampFromBackupFilename e.name with
    | none =>
      simp only [h3]
      rw [ih]
    | some ts =>
    simp only [h3]
    by_cases h4 : timeSub now ts > p.LogExpiration
    · simp only [if_pos h4]
      rw [ih]
      simp
    · simp only [if_neg h4]
      rw [ih]

lemma foldl_length_le (l : Str) : ∀ a : Str,
    (l.foldl (fun acc c => if c = '/' then [] else acc ++ [c]) a).length ≤
      a.length + l.length := by
  induction l with
  | nil =>
    intro a
    simp
  | cons c t ih =>
    intro a
    simp only [List.foldl_cons]
    by_cases hc : c = '/'
    · rw [if_pos hc]
      have := ih []
      simp only [List.length_nil, Nat.zero_add] at this
      simp only [List.length_cons]
      omega
    · rw [if_neg hc]
      have := ih (a ++ [c])
      simp only [List.length_append, List.length_cons, List.length_nil] at this ⊢
      omega

lemma afterLastSlash_length_le (l : Str) : (afterLastSlash l).length ≤ l.length := by
  have := foldl_length_le l []
  simpa [afterLastSlash] using this

lemma pathBase_length_le (s : Str) (h : s ≠ []) : (pathBase s).length ≤ s.length := by
  unfold pathBase
  rw [if_neg h]
  have hul : ((s.reverse.dropWhile (fun c => c = '/')).reverse).length ≤ s.length := by
    rw [List.length_reverse]
    calc (s.reverse.dropWhile (fun c => c = '/')).length
        ≤ s.reverse.length := (List.dropWhile_sublist _).length_le
      _ = s.length := List.length_reverse s
  by_cases h2 : afterLastSlash ((s.reverse.dropWhile (fun c => c = '/')).reverse) = []
  · rw [if_pos h2]
    have : 0 < s.length := List.length_pos.mpr h
    simp only [List.length_cons, List.length_nil]
    omega
  · rw [if_neg h2]
    exact le_trans (afterLastSlash_length_le _) hul

lemma isBackupFile_self (p : LogProcessor) : p.isBackupFile p.auditLogFile = false := by
  by_cases hf : p.auditLogFile = []
  · unfold LogProcessor.isBackupFile LogProcessor.parseTimestampFromBackupFilename
    rw [hf]
    rfl
  · have hlen : (pathBase p.auditLogFile).length < (p.auditLogFile ++ ['.']).length := by
      have := pathBase_length_le p.auditLogFile hf
      simp only [List.length_append, List.length_cons, List.length_nil]
      omega
    have hpre : (p.auditLogFile ++ ['.']).isPrefixOf (pathBase p.auditLogFile) = false := by
      by_contra hcon
      simp only [Bool.not_eq_false] at hcon
      have := (List.isPrefixOf_iff_prefix.mp hcon).length_le
      omega
    unfold LogProcessor.isBackupFile
    rw [hpre, Bool.false_and]

/-- C5. One expiration sweep deletes exactly the regular, non-directory
entries whose name is a backup file with a parsed timestamp whose age
exceeds the retention duration; entries inside the window, and names that
are not backup files, are never deleted; the live log file itself is not a
backup file and its path is never deleted. -/
theorem expire_deletes_exactly_aged_backups (p : LogProcessor) (now : GoTime)
    (entries : List DirEntry) :
    (∀ name, name ∈ p.expireBackupLogFiles now entries ↔
      ∃ e ∈ entries, name = pathJoin p.auditLogDir e.name ∧
        e.isDir = false ∧ e.isRegular = true ∧ p.isBackupFile e.name = true ∧
        ∃ ts, p.parseTimestampFromBackupFilename e.name = some ts ∧
          timeSub now ts > p.LogExpiration) ∧
    p.isBackupFile p.auditLogFile = false ∧
    pathJoin p.auditLogDir p.auditLogFile ∉ p.expireBackupLogFiles now entries := by
  have hchar : ∀ name, name ∈ p.expireBackupLogFiles now entries ↔
      ∃ e ∈ entries, name = pathJoin p.auditLogDir e.name ∧
        e.isDir = false ∧ e.isRegular = true ∧ p.isBackupFile e.name = true ∧
        ∃ ts, p.parseTimestampFromBackupFilename e.name = some ts ∧
          timeSub now ts > p.LogExpiration := by
    intro name
    unfold LogProcessor.expireBackupLogFiles
    rw [expire_foldl, List.nil_append, List.mem_filterMap]
    constructor
    · rintro ⟨ e, he, hf⟩
      refine ⟨ e, he, ?_⟩
      cases h1 : (e.isDir || !e.isRegular) with
      | true =>
        rw [if_pos h1] at hf
        cases hf
      | false =>
      rw [h1] at hf
      simp only [Bool.false_eq_true, if_false] at hf
      cases h2 : p.isBackupFile e.name with
      | false =>
        rw [h2] at hf
        simp only [Bool.not_false, if_true] at hf
        cases hf
      | true =>
      rw [h2] at hf
      simp only [Bool.not_true, Bool.false_eq_true, if_false] at hf
      cases h3 : p.parseTimestampFromBackupFilename e.name with
      | none =>
        simp only [h3] at hf
        cases hf
      | some ts =>
      simp only [h3] at hf
      by_cases h4 : timeSub now ts > p.LogExpiration
      · rw [if_pos h4] at hf
        have hb := Bool.or_eq_false_iff.mp h1
        refine ⟨ (Option.some.inj hf).symm, hb.1, ?_, rfl, ts, rfl, h4⟩
        have := hb.2
        cases hreg : e.isRegular
        · rw [hreg] at this
          cases this
        · rfl
      · rw [if_neg h4] at hf
        cases hf
    · rintro ⟨ e, he, rfl, h1, h2, h3, ts, h4, h5⟩
      refine ⟨ e, he, ?_⟩
      simp [h1, h2, h3, h4, h5]
  refine ⟨ hchar, isBackupFile_self p, ?_⟩
  intro hmem
  rcases (hchar _).mp hmem with ⟨ e, he, heq, h1, h2, h3, ts, h4, h5⟩
  have hname := pathJoin_right_inj p.auditLogDir _ _ heq
  rw [← hname] at h3
  rw [isBackupFile_self p] at h3
  cases h3


/-- C6 counterexample data: a processor whose expiration interval and
retention duration are both left zero. -/
def wpzero : LogProcessor := ⟨ ['v'], ['a', '.', 'l', 'o', 'g'], 0, 0, 0⟩

/-- C6 counterexample data: an aged backup file in the directory. -/
def wentry : DirEntry := ⟨ ['a', '.', 'l', 'o', 'g', '.', '0'], false, true⟩

/-- C6 counterexample. With interval and retention both zero, starting the
expiration job panics in time.NewTicker, so a crash does result; and a
sweep run with zero retention deletes an aged backup rather than leaving
every file behind. -/
theorem expiration_zero_config_cex :
    startExpirationJobInit wpzero = Except.error () ∧
    wpzero.expireBackupLogFiles ⟨ 10, 0⟩ [wentry] =
      [pathJoin wpzero.auditLogDir wentry.name] := by
  constructor
  · rfl
  · rfl

/-- C6 amended. A zero or negative expiration interval does not disable the
job quietly: StartExpirationJob panics at ticker creation, before any sweep
runs, so no file is ever deleted but the goroutine crashes; with a positive
interval the ticker is created and the job starts. -/
theorem expiration_zero_interval_panics :
    (∀ p : LogProcessor, p.ExpirationJobInterval ≤ 0 →
      startExpirationJobInit p = Except.error ()) ∧
    (∀ p : LogProcessor, 0 < p.ExpirationJobInterval →
      startExpirationJobInit p = Except.ok ()) := by
  constructor
  · intro p h
    simp only [startExpirationJobInit, newTicker]
    rw [if_pos h]
  · intro p h
    simp only [startExpirationJobInit, newTicker]
    rw [if_neg (by omega)]

/-- C6 amended witness: the concrete zero-interval processor panics at
start. -/
theorem expiration_zero_interval_panics_witness :
    startExpirationJobInit wpzero = Except.error () :=
  expiration_zero_interval_panics.1 wpzero (by decide)

/-- C8. The default handler always returns nil; a record with zero messages
is a no-op with no warning and no metric increment; a record with messages
emits exactly one warning holding the transaction id, client ip, the
request method, uri and protocol when a request is present, and one
rule-identifier and message pair per message, then increments the
transaction counter once and the rule-violation counter once per
message. -/
theorem default_handler_effects (urlParse : Str → Option (Str × Str)) (log : Log) :
    (defaultLogHandler urlParse log).result = none ∧
    (log.Messages = [] → defaultLogHandler urlParse log = ⟨ none, [], [], []⟩) ∧
    (log.Messages ≠ [] →
      (defaultLogHandler urlParse log).warnings =
        [⟨ log.Transaction.ID, log.Transaction.ClientIP,
           log.Transaction.Request.map (fun r => (r.Method, r.URI, r.Protocol)),
           log.Messages.map (fun msg =>
             (msg.Data.File ++ '-' :: formatInt msg.Data.ID, msg.Data.Msg))⟩] ∧
      (defaultLogHandler urlParse log).txnMetrics.length = 1 ∧
      (defaultLogHandler urlParse log).ruleMetrics.length = log.Messages.length) := by
  unfold defaultLogHandler
  by_cases h : log.Messages = []
  · rw [if_pos h]
    exact ⟨ rfl, fun _ => rfl, fun hc => absurd h hc⟩
  · rw [if_neg h]
    refine ⟨ rfl, fun hc => absurd hc h, fun _ => ⟨ rfl, rfl, ?_⟩⟩
    unfold sendRuleViolationMetrics
    rw [List.length_map]

/-- C8 witness data: a record with one message and no request. -/
def wlog : Log :=
  ⟨⟨ [], 0, ['t', '1'], ['i', 'p'], 0, [], 0, [], none, none⟩,
   [⟨ ['m'], ⟨ ['f'], 1, 2, [], ['w'], [], 0, [], 0, 0, [], []⟩⟩]⟩

/-- C8 witness: the concrete one-message record produces one warning, one
transaction increment and one rule increment. -/
theorem default_handler_effects_witness :
    (defaultLogHandler (fun _ => none) wlog).warnings =
      [⟨ wlog.Transaction.ID, wlog.Transaction.ClientIP,
         wlog.Transaction.Request.map (fun r => (r.Method, r.URI, r.Protocol)),
         wlog.Messages.map (fun msg =>
           (msg.Data.File ++ '-' :: formatInt msg.Data.ID, msg.Data.Msg))⟩] ∧
    (defaultLogHandler (fun _ => none) wlog).txnMetrics.length = 1 ∧
    (defaultLogHandler (fun _ => none) wlog).ruleMetrics.length = wlog.Messages.length :=
  (default_handler_effects (fun _ => none) wlog).2.2 (by decide)

end Audit
